import Mathlib

/-!
Verification of the smoldot in-memory keystore (`src/identity/keystore.rs`).

The keystore logic (index lookup, algorithm dispatch, insertion with
replacement, transcript construction) is embedded directly from the source.
The cryptographic primitives it calls (`rand_chacha`, `ed25519_zebra`,
`schnorrkel`, `merlin`) are external crates, so they are abstracted as a
structure of opaque functions over `Nat`-coded values; the merlin transcript
is modelled as the exact sequence of append operations performed on it,
which is what the keystore code controls.
-/

set_option autoImplicit false

namespace Smoldot

/-- Byte sequences (`&[u8]`, `[u8; N]`). -/
abbrev Bytes := List Nat

/-- `KeyNamespace`: the closed set of namespace tags. -/
inductive KeyNamespace where
  | Aura
  | AuthorityDiscovery
  | Babe
  | Grandpa
  | ImOnline
deriving DecidableEq

/-- `KeyNamespace::all()`: all existing variants, in source order. -/
def KeyNamespace.all : List KeyNamespace :=
  [.Aura, .AuthorityDiscovery, .Babe, .Grandpa, .ImOnline]

/-- One append operation performed on a merlin transcript. -/
inductive TranscriptOp where
  | appendMessage (label : Bytes) (message : Bytes)
  | appendU64 (label : Bytes) (value : Nat)
deriving DecidableEq

/-- A merlin `Transcript`, modelled as its initial label together with the
sequence of append operations performed on it, in order. -/
structure Transcript where
  initLabel : Bytes
  ops : List TranscriptOp
deriving DecidableEq

/-- `merlin::Transcript::new(label)`. -/
def Transcript.new (label : Bytes) : Transcript :=
  { initLabel := label, ops := [] }

/-- `transcript.append_message(label, bytes)`. -/
def Transcript.append_message (t : Transcript) (label message : Bytes) : Transcript :=
  { t with ops := t.ops ++ [.appendMessage label message] }

/-- `transcript.append_u64(label, value)`. -/
def Transcript.append_u64 (t : Transcript) (label : Bytes) (value : Nat) : Transcript :=
  { t with ops := t.ops ++ [.appendU64 label value] }

/-- The external cryptographic primitives used by the keystore, abstracted as
opaque total functions. PRNG states, private keys and keypairs are coded as
`Nat`; public keys and signatures are coded as `Nat` as well since the
keystore treats them as opaque byte arrays. -/
structure Crypto where
  /-- `rand_chacha::ChaCha20Rng::from_seed(seed)`. -/
  chacha20FromSeed : Bytes → Nat
  /-- `gen_rng.sample(rand::distributions::Standard)`: the draw used to seed
  `SipHasherBuild`; returns the sample and the advanced PRNG state. -/
  sampleSip : Nat → Nat × Nat
  /-- `ed25519_zebra::SigningKey::new(&mut rng)`: fresh key and advanced PRNG. -/
  ed25519New : Nat → Nat × Nat
  /-- `ed25519_zebra::VerificationKey::from(&key)`, then `.into()` bytes. -/
  ed25519PublicOf : Nat → Nat
  /-- `key.sign(payload)` for Ed25519, as 64 signature bytes. -/
  ed25519SignBytes : Nat → Bytes → Nat
  /-- `schnorrkel::Keypair::generate_with(&mut rng)`: fresh keypair and advanced PRNG. -/
  sr25519GenerateWith : Nat → Nat × Nat
  /-- `keypair.public.to_bytes()`. -/
  sr25519PublicOf : Nat → Nat
  /-- `schnorrkel::SecretKey::from_bytes(..)` followed by `.to_keypair()`;
  `none` models the `Err` case in which `.unwrap()` panics. -/
  secretKeyFromBytes : Bytes → Option Nat
  /-- `key.sign(signing_context(ctx).bytes(payload)).to_bytes()`:
  keypair, context label, payload. -/
  sr25519SignCtx : Nat → Bytes → Bytes → Nat
  /-- `key.vrf_sign(transcript)`: returns `(in_out, proof, batchable-proof)`,
  the proof component already as its 64 bytes (`proof.to_bytes()`). -/
  vrfSign : Nat → Transcript → Nat × Nat × Nat

/-- `PrivateKey`: tagged union over the supported algorithm families. -/
inductive PrivateKey where
  | MemoryEd25519 (key : Nat)
  | MemorySr25519 (keypair : Nat)
deriving DecidableEq

/-- One entry of the key index: `((KeyNamespace, [u8; 32]), PrivateKey)`. -/
abbrev KeyMapEntry := (KeyNamespace × Nat) × PrivateKey

/-- The key index `hashbrown::HashMap<(KeyNamespace, [u8; 32]), PrivateKey, _>`,
modelled as an association list with at most one entry per key. -/
abbrev KeyMap := List KeyMapEntry

/-- Removal of every entry whose key is `k`; auxiliary to `mapInsert`. -/
def mapErase : KeyMap → (KeyNamespace × Nat) → KeyMap
  | [], _ => []
  | e :: m, k => if e.1 = k then mapErase m k else e :: mapErase m k

/-- `keys.insert(k, v)`: HashMap insertion replaces any existing entry for `k`. -/
def mapInsert (m : KeyMap) (k : KeyNamespace × Nat) (v : PrivateKey) : KeyMap :=
  (k, v) :: mapErase m k

/-- `keys.get(&k)`. -/
def mapGet : KeyMap → (KeyNamespace × Nat) → Option PrivateKey
  | [], _ => none
  | e :: m, k => if e.1 = k then some e.2 else mapGet m k

/-- `Guarded`: the state protected by the keystore's mutex. -/
structure Guarded where
  gen_rng : Nat
  keys : KeyMap
deriving DecidableEq

/-- `SignError`. -/
inductive SignError where
  | UnknownPublicKey
deriving DecidableEq

/-- `SignVrfError`. -/
inductive SignVrfError where
  | Sign (e : SignError)
  | WrongKeyAlgorithm
deriving DecidableEq

/-- `VrfSignature`: carries only the 64-byte proof. -/
structure VrfSignature where
  proof : Nat
deriving DecidableEq

/-- `Keystore::new(randomness_seed)`: derive the PRNG from the seed, draw one
sample from it to seed the index's keyed hasher, store the advanced PRNG and
the empty index. -/
def Keystore.new (c : Crypto) (randomness_seed : Bytes) : Guarded :=
  let gen_rng := c.chacha20FromSeed randomness_seed
  let drawn := c.sampleSip gen_rng
  { gen_rng := drawn.2, keys := [] }

/-- `Keystore::insert_sr25519_memory(namespaces, private_key)`: decode the
private key (`none` result models the `.unwrap()` panic on invalid bytes,
which aborts before touching the index), derive the public key, and insert
one entry per supplied namespace. Returns the public key and the new state. -/
def Keystore.insert_sr25519_memory (c : Crypto) (g : Guarded)
    (namespaces : List KeyNamespace) (private_key : Bytes) :
    Option (Nat × Guarded) :=
  match c.secretKeyFromBytes private_key with
  | none => none
  | some keypair =>
      let public_key := c.sr25519PublicOf keypair
      let keys := namespaces.foldl
        (fun ks ns => mapInsert ks (ns, public_key) (.MemorySr25519 keypair))
        g.keys
      some (public_key, { g with keys := keys })

/-- `Keystore::generate_ed25519(namespace)`: draw a fresh Ed25519 key from the
PRNG, insert it under the namespace, return the public key and new state. -/
def Keystore.generate_ed25519 (c : Crypto) (g : Guarded) (ns : KeyNamespace) :
    Nat × Guarded :=
  let drawn := c.ed25519New g.gen_rng
  let public_key := c.ed25519PublicOf drawn.1
  (public_key,
    { gen_rng := drawn.2,
      keys := mapInsert g.keys (ns, public_key) (.MemoryEd25519 drawn.1) })

/-- `Keystore::generate_sr25519(namespace)`: draw a fresh Sr25519 keypair from
the PRNG, insert it under the namespace, return the public key and new state. -/
def Keystore.generate_sr25519 (c : Crypto) (g : Guarded) (ns : KeyNamespace) :
    Nat × Guarded :=
  let drawn := c.sr25519GenerateWith g.gen_rng
  let public_key := c.sr25519PublicOf drawn.1
  (public_key,
    { gen_rng := drawn.2,
      keys := mapInsert g.keys (ns, public_key) (.MemorySr25519 drawn.1) })

/-- `Keystore::keys()`: the list of `(KeyNamespace, [u8; 32])` pairs in the index. -/
def Keystore.keysList (g : Guarded) : List (KeyNamespace × Nat) :=
  g.keys.map Prod.fst

/-- `b"substrate"`, the hard-coded signing-context label of `Keystore::sign`. -/
def substrateContext : Bytes := [115, 117, 98, 115, 116, 114, 97, 116, 101]

/-- `Keystore::sign(key_namespace, public_key, payload)`: look up the entry and
dispatch on its algorithm. The method takes `&self`; the returned `Guarded`
is the state it leaves behind. -/
def Keystore.sign (c : Crypto) (g : Guarded) (key_namespace : KeyNamespace)
    (public_key : Nat) (payload : Bytes) : Except SignError Nat × Guarded :=
  match mapGet g.keys (key_namespace, public_key) with
  | none => (.error .UnknownPublicKey, g)
  | some (.MemoryEd25519 key) => (.ok (c.ed25519SignBytes key payload), g)
  | some (.MemorySr25519 key) =>
      (.ok (c.sr25519SignCtx key substrateContext payload), g)

/-- A `transcript_items` element: `(&'static [u8], either::Either<&[u8], u64>)`. -/
abbrev TranscriptItem := Bytes × (Bytes ⊕ Nat)

/-- The transcript-building loop of `Keystore::sign_sr25519_vrf`: start from
`Transcript::new(label)` and append each item in order, dispatching on the
`Either` variant. -/
def buildTranscript (label : Bytes) (transcript_items : List TranscriptItem) :
    Transcript :=
  transcript_items.foldl
    (fun t item =>
      match item.2 with
      | .inl bytes => t.append_message item.1 bytes
      | .inr value => t.append_u64 item.1 value)
    (Transcript.new label)

/-- `Keystore::sign_sr25519_vrf(key_namespace, public_key, label,
transcript_items)`: look up the entry; Ed25519 entries are rejected, Sr25519
entries VRF-sign the built transcript, keeping only the proof. The method
takes `&self`; the returned `Guarded` is the state it leaves behind. -/
def Keystore.sign_sr25519_vrf (c : Crypto) (g : Guarded)
    (key_namespace : KeyNamespace) (public_key : Nat) (label : Bytes)
    (transcript_items : List TranscriptItem) :
    Except SignVrfError VrfSignature × Guarded :=
  match mapGet g.keys (key_namespace, public_key) with
  | none => (.error (.Sign .UnknownPublicKey), g)
  | some (.MemoryEd25519 _) => (.error .WrongKeyAlgorithm, g)
  | some (.MemorySr25519 key) =>
      let transcript := buildTranscript label transcript_items
      let signed := c.vrfSign key transcript
      (.ok { proof := signed.2.1 }, g)

/-- A concrete instantiation of the abstract primitives, used only to
evaluate the operations at concrete inputs. -/
def defaultCrypto : Crypto where
  chacha20FromSeed := fun seed => seed.length
  sampleSip := fun r => (r, r + 1)
  ed25519New := fun r => (r, r + 1)
  ed25519PublicOf := fun k => k + 100
  ed25519SignBytes := fun k p => k + p.length
  sr25519GenerateWith := fun r => (r, r + 1)
  sr25519PublicOf := fun k => k + 200
  secretKeyFromBytes := fun b => if b.length = 64 then some b.length else none
  sr25519SignCtx := fun k ctx p => k + ctx.length + p.length
  vrfSign := fun k t => (k + 1, k + t.ops.length, 0)

/-- A keystore state holding one Ed25519 entry, for concrete evaluation. -/
def exampleEdState : Guarded :=
  { gen_rng := 0, keys := [((.Aura, 5), .MemoryEd25519 9)] }

/-- A keystore state holding one Sr25519 entry, for concrete evaluation. -/
def exampleSrState : Guarded :=
  { gen_rng := 0, keys := [((.Babe, 3), .MemorySr25519 7)] }

/-- The empty keystore state, for concrete evaluation. -/
def emptyState : Guarded := { gen_rng := 0, keys := [] }

/-- Spec-side description of the transcript operation contributed by one
item (raw bytes for the byte-sequence variant, a 64-bit integer append for
the integer variant), to be compared with `buildTranscript`. -/
def specItemOp : TranscriptItem → TranscriptOp
  | (label, Sum.inl bytes) => .appendMessage label bytes
  | (label, Sum.inr value) => .appendU64 label value

/-- The key index holds no (namespace, public key) pair twice. -/
def IndexNodup (g : Guarded) : Prop := (Keystore.keysList g).Nodup

/-- `mapGet` after `mapErase`: the erased key is gone, others unchanged. -/
theorem mapGet_mapErase (m : KeyMap) (k q : KeyNamespace × Nat) :
    mapGet (mapErase m k) q = if q = k then none else mapGet m q := by
  induction m with
  | nil => simp [mapErase, mapGet]
  | cons e m ih =>
    by_cases hek : e.1 = k
    · rw [mapErase, if_pos hek, ih]
      by_cases hq : q = k
      · simp [hq]
      · have hne : ¬ e.1 = q := fun hc => hq (by rw [← hc, hek])
        simp [mapGet, hq, hne]
    · rw [mapErase, if_neg hek, mapGet, ih]
      by_cases heq : e.1 = q
      · have hq : ¬ q = k := fun hc => hek (by rw [heq, hc])
        simp [mapGet, heq, hq]
      · simp [mapGet, heq]

/-- `mapGet` after `mapInsert`: the inserted key maps to the new value,
every other key is unchanged. -/
theorem mapGet_mapInsert (m : KeyMap) (k q : KeyNamespace × Nat) (v : PrivateKey) :
    mapGet (mapInsert m k v) q = if q = k then some v else mapGet m q := by
  by_cases hq : q = k
  · simp [mapInsert, mapGet, hq]
  · have hne : ¬ k = q := fun hc => hq hc.symm
    simp [mapInsert, mapGet, hne, mapGet_mapErase, hq]

/-- Entry membership after `mapErase`. -/
theorem mem_mapErase (m : KeyMap) (k : KeyNamespace × Nat) (e : KeyMapEntry) :
    e ∈ mapErase m k ↔ e ∈ m ∧ e.1 ≠ k := by
  induction m with
  | nil => simp [mapErase]
  | cons f m ih =>
    by_cases hfk : f.1 = k
    · rw [mapErase, if_pos hfk, ih]
      constructor
      · rintro ⟨h1, h2⟩
        exact ⟨List.mem_cons_of_mem f h1, h2⟩
      · rintro ⟨h1, h2⟩
        rcases List.mem_cons.mp h1 with he | he
        · exact absurd (by rw [he]; exact hfk) h2
        · exact ⟨he, h2⟩
    · rw [mapErase, if_neg hfk]
      constructor
      · intro h
        rcases List.mem_cons.mp h with he | he
        · exact ⟨by rw [he]; exact List.mem_cons_self f m,
            by rw [he]; exact hfk⟩
        · rcases ih.mp he with ⟨h1, h2⟩
          exact ⟨List.mem_cons_of_mem f h1, h2⟩
      · rintro ⟨h1, h2⟩
        rcases List.mem_cons.mp h1 with he | he
        · exact he ▸ List.mem_cons_self f (mapErase m k)
        · exact List.mem_cons_of_mem f (ih.mpr ⟨he, h2⟩)

/-- Key membership after `mapErase`. -/
theorem mem_map_fst_mapErase (m : KeyMap) (k a : KeyNamespace × Nat) :
    a ∈ (mapErase m k).map Prod.fst ↔ a ∈ m.map Prod.fst ∧ a ≠ k := by
  simp only [List.mem_map]
  constructor
  · rintro ⟨e, he, rfl⟩
    rcases (mem_mapErase m k e).mp he with ⟨h1, h2⟩
    exact ⟨⟨e, h1, rfl⟩, h2⟩
  · rintro ⟨⟨e, h1, rfl⟩, h2⟩
    exact ⟨e, (mem_mapErase m k e).mpr ⟨h1, h2⟩, rfl⟩

/-- Key membership after `mapInsert`. -/
theorem mem_map_fst_mapInsert (m : KeyMap) (k a : KeyNamespace × Nat) (v : PrivateKey) :
    a ∈ (mapInsert m k v).map Prod.fst ↔ a = k ∨ a ∈ m.map Prod.fst := by
  simp only [mapInsert, List.map_cons, List.mem_cons, mem_map_fst_mapErase]
  constructor
  · rintro (h | ⟨h1, h2⟩)
    · exact Or.inl h
    · exact Or.inr h1
  · rintro (h | h)
    · exact Or.inl h
    · by_cases hak : a = k
      · exact Or.inl hak
      · exact Or.inr ⟨h, hak⟩

/-- `mapInsert` preserves the no-duplicate-keys invariant. -/
theorem nodup_map_fst_mapInsert (m : KeyMap) (k : KeyNamespace × Nat) (v : PrivateKey)
    (h : (m.map Prod.fst).Nodup) : ((mapInsert m k v).map Prod.fst).Nodup := by
  have herase : ∀ m : KeyMap, (m.map Prod.fst).Nodup →
      ((mapErase m k).map Prod.fst).Nodup := by
    intro m hm
    induction m with
    | nil => simp [mapErase]
    | cons e m ih =>
      rw [List.map_cons, List.nodup_cons] at hm
      by_cases hek : e.1 = k
      · simpa [mapErase, hek] using ih hm.2
      · have : e.1 ∉ (mapErase m k).map Prod.fst := fun hc =>
          hm.1 ((mem_map_fst_mapErase m k e.1).mp hc).1
        simp [mapErase, hek, List.nodup_cons, this, ih hm.2]
  have hout : k ∉ (mapErase m k).map Prod.fst := fun hc =>
    ((mem_map_fst_mapErase m k k).mp hc).2 rfl
  simpa [mapInsert, List.nodup_cons] using And.intro hout (herase m h)

/-- `mapGet` after the per-namespace insertion fold of
`insert_sr25519_memory`. -/
theorem mapGet_foldl_insert (nss : List KeyNamespace) (m : KeyMap) (pk kp : Nat)
    (q : KeyNamespace × Nat) :
    mapGet (nss.foldl (fun ks ns => mapInsert ks (ns, pk) (.MemorySr25519 kp)) m) q =
      if q.1 ∈ nss ∧ q.2 = pk then some (.MemorySr25519 kp) else mapGet m q := by
  induction nss generalizing m with
  | nil => simp
  | cons ns nss ih =>
    rw [List.foldl_cons, ih, mapGet_mapInsert]
    by_cases hm : q.1 ∈ nss ∧ q.2 = pk
    · simp [hm, List.mem_cons, hm.1, hm.2]
    · by_cases hq : q = (ns, pk)
      · have h1 : q.1 = ns := by rw [hq]
        have h2 : q.2 = pk := by rw [hq]
        simp [hm, hq, List.mem_cons, h1, h2]
      · have hcond : ¬((q.1 = ns ∨ q.1 ∈ nss) ∧ q.2 = pk) := by
          rintro ⟨h1 | h1, h2⟩
          · exact hq (Prod.ext_iff.mpr ⟨h1, h2⟩)
          · exact hm ⟨h1, h2⟩
        simp [hm, hq, List.mem_cons, hcond]

/-- Key membership after the per-namespace insertion fold. -/
theorem mem_map_fst_foldl_insert (nss : List KeyNamespace) (m : KeyMap)
    (pk kp : Nat) (a : KeyNamespace × Nat) :
    a ∈ (nss.foldl (fun ks ns => mapInsert ks (ns, pk) (.MemorySr25519 kp)) m).map
        Prod.fst ↔
      (a.1 ∈ nss ∧ a.2 = pk) ∨ a ∈ m.map Prod.fst := by
  induction nss generalizing m with
  | nil => simp
  | cons ns nss ih =>
    rw [List.foldl_cons, ih, mem_map_fst_mapInsert]
    constructor
    · rintro (⟨h1, h2⟩ | h | h)
      · exact Or.inl ⟨List.mem_cons_of_mem ns h1, h2⟩
      · exact Or.inl ⟨by rw [h]; exact List.mem_cons_self ns nss, by rw [h]⟩
      · exact Or.inr h
    · rintro (⟨h1, h2⟩ | h)
      · rcases List.mem_cons.mp h1 with h1 | h1
        · exact Or.inr (Or.inl (Prod.ext_iff.mpr ⟨h1, h2⟩))
        · exact Or.inl ⟨h1, h2⟩
      · exact Or.inr (Or.inr h)

/-- The per-namespace insertion fold preserves the no-duplicate-keys
invariant. -/
theorem nodup_foldl_insert (nss : List KeyNamespace) (m : KeyMap) (pk kp : Nat)
    (h : (m.map Prod.fst).Nodup) :
    ((nss.foldl (fun ks ns => mapInsert ks (ns, pk) (.MemorySr25519 kp)) m).map
      Prod.fst).Nodup := by
  induction nss generalizing m with
  | nil => exact h
  | cons ns nss ih =>
    rw [List.foldl_cons]
    exact ih _ (nodup_map_fst_mapInsert m (ns, pk) _ h)

/-- Claim C1: if the key index has no entry for `(n, pk)`, then `sign` fails
with `UnknownPublicKey`, `sign_sr25519_vrf` fails with
`Sign(UnknownPublicKey)`, and neither operation modifies the keystore state. -/
theorem sign_unknown_key_fails (c : Crypto) (g : Guarded) (n : KeyNamespace)
    (pk : Nat) (payload : Bytes) (label : Bytes) (items : List TranscriptItem)
    (h : mapGet g.keys (n, pk) = none) :
    Keystore.sign c g n pk payload = (.error .UnknownPublicKey, g) ∧
      Keystore.sign_sr25519_vrf c g n pk label items =
        (.error (.Sign .UnknownPublicKey), g) := by
  constructor
  · unfold Keystore.sign
    rw [h]
  · unfold Keystore.sign_sr25519_vrf
    rw [h]

/-- Witness for C1: on an empty keystore, signing with an arbitrary key fails
with `UnknownPublicKey` and leaves the state unchanged. -/
theorem sign_unknown_key_fails_witness :
    Keystore.sign defaultCrypto { gen_rng := 0, keys := [] } .Aura 7 [1, 2]
        = (.error .UnknownPublicKey, { gen_rng := 0, keys := [] }) ∧
      Keystore.sign_sr25519_vrf defaultCrypto { gen_rng := 0, keys := [] }
          .Aura 7 [3] [] =
        (.error (.Sign .UnknownPublicKey), { gen_rng := 0, keys := [] }) :=
  sign_unknown_key_fails defaultCrypto { gen_rng := 0, keys := [] } .Aura 7
    [1, 2] [3] [] (by decide)

/-- Claim C2: `sign_sr25519_vrf` fails with `WrongKeyAlgorithm` whenever the
matched entry is Ed25519, regardless of namespace or transcript contents, and
it can only return a proof when the matched entry is Sr25519. -/
theorem sign_vrf_requires_sr25519 (c : Crypto) (g : Guarded) (n : KeyNamespace)
    (pk : Nat) (label : Bytes) (items : List TranscriptItem) :
    (∀ key, mapGet g.keys (n, pk) = some (.MemoryEd25519 key) →
      Keystore.sign_sr25519_vrf c g n pk label items =
        (.error .WrongKeyAlgorithm, g)) ∧
      (∀ v, (Keystore.sign_sr25519_vrf c g n pk label items).1 = .ok v →
        ∃ kp, mapGet g.keys (n, pk) = some (.MemorySr25519 kp)) := by
  constructor
  · intro key hkey
    unfold Keystore.sign_sr25519_vrf
    rw [hkey]
  · intro v hv
    unfold Keystore.sign_sr25519_vrf at hv
    rcases hm : mapGet g.keys (n, pk) with _ | pkk
    · rw [hm] at hv
      simp at hv
    · rcases pkk with key | kp
      · rw [hm] at hv
        simp at hv
      · exact ⟨kp, rfl⟩

/-- Witness for C2: a VRF signature request against a concrete Ed25519 entry
is rejected with `WrongKeyAlgorithm`, and a concrete successful VRF request
exposes an Sr25519 entry. -/
theorem sign_vrf_requires_sr25519_witness :
    Keystore.sign_sr25519_vrf defaultCrypto exampleEdState .Aura 5 [1] [] =
        (.error .WrongKeyAlgorithm, exampleEdState) ∧
      (∃ kp, mapGet exampleSrState.keys (.Babe, 3) = some (.MemorySr25519 kp)) :=
  ⟨(sign_vrf_requires_sr25519 defaultCrypto exampleEdState .Aura 5 [1] []).1 9 rfl,
    (sign_vrf_requires_sr25519 defaultCrypto exampleSrState .Babe 3 [2] []).2
      { proof := 7 } rfl⟩

/-- Claim C3: for a valid Sr25519 private key, `insert_sr25519_memory`
returns the derived public key, installs one Sr25519 entry per supplied
namespace, leaves every other index entry unchanged, and the resulting key
list contains exactly the old pairs plus the (namespace, pk) pairs of this
call. -/
theorem insert_sr25519_memory_spec (c : Crypto) (g : Guarded)
    (nss : List KeyNamespace) (private_key : Bytes) (kp : Nat)
    (h : c.secretKeyFromBytes private_key = some kp) :
    ∃ g' : Guarded,
      Keystore.insert_sr25519_memory c g nss private_key =
          some (c.sr25519PublicOf kp, g') ∧
        (∀ n, n ∈ nss →
          mapGet g'.keys (n, c.sr25519PublicOf kp) = some (.MemorySr25519 kp)) ∧
        (∀ q : KeyNamespace × Nat, ¬(q.1 ∈ nss ∧ q.2 = c.sr25519PublicOf kp) →
          mapGet g'.keys q = mapGet g.keys q) ∧
        (∀ q : KeyNamespace × Nat,
          q ∈ Keystore.keysList g' ↔
            (q.1 ∈ nss ∧ q.2 = c.sr25519PublicOf kp) ∨ q ∈ Keystore.keysList g) := by
  refine ⟨⟨g.gen_rng, nss.foldl
      (fun ks ns => mapInsert ks (ns, c.sr25519PublicOf kp) (.MemorySr25519 kp))
      g.keys⟩, ?_, ?_, ?_, ?_⟩
  · unfold Keystore.insert_sr25519_memory
    rw [h]
  · intro n hn
    rw [mapGet_foldl_insert]
    simp [hn]
  · intro q hq
    rw [mapGet_foldl_insert, if_neg hq]
  · intro q
    simp only [Keystore.keysList]
    exact mem_map_fst_foldl_insert nss g.keys (c.sr25519PublicOf kp) kp q

/-- Witness for C3: inserting a concrete valid key under `{Aura, Babe}` on an
empty keystore yields exactly the two expected entries. -/
theorem insert_sr25519_memory_spec_witness :
    ∃ g' : Guarded,
      Keystore.insert_sr25519_memory defaultCrypto emptyState
          [KeyNamespace.Aura, KeyNamespace.Babe] (List.replicate 64 0) =
          some (defaultCrypto.sr25519PublicOf 64, g') ∧
        (∀ n, n ∈ [KeyNamespace.Aura, KeyNamespace.Babe] →
          mapGet g'.keys (n, defaultCrypto.sr25519PublicOf 64) =
            some (.MemorySr25519 64)) ∧
        (∀ q : KeyNamespace × Nat,
          ¬(q.1 ∈ [KeyNamespace.Aura, KeyNamespace.Babe] ∧
              q.2 = defaultCrypto.sr25519PublicOf 64) →
          mapGet g'.keys q = mapGet emptyState.keys q) ∧
        (∀ q : KeyNamespace × Nat,
          q ∈ Keystore.keysList g' ↔
            (q.1 ∈ [KeyNamespace.Aura, KeyNamespace.Babe] ∧
                q.2 = defaultCrypto.sr25519PublicOf 64) ∨
              q ∈ Keystore.keysList emptyState) :=
  insert_sr25519_memory_spec defaultCrypto emptyState
    [KeyNamespace.Aura, KeyNamespace.Babe] (List.replicate 64 0) 64 (by decide)

/-- Claim C4: keystore construction and first key generation are
deterministic in the 32-byte seed: two keystores built from the same seed
return the same public key for the same first generation call, and for
Sr25519 that key is exactly the one derived from the PRNG state left after
the hasher-seed draw. -/
theorem keystore_new_deterministic (c : Crypto) (seed : Bytes)
    (g1 g2 : Guarded) (n : KeyNamespace) (_h : seed.length = 32)
    (h1 : g1 = Keystore.new c seed) (h2 : g2 = Keystore.new c seed) :
    (Keystore.generate_sr25519 c g1 n).1 = (Keystore.generate_sr25519 c g2 n).1 ∧
      (Keystore.generate_ed25519 c g1 n).1 =
        (Keystore.generate_ed25519 c g2 n).1 ∧
      (Keystore.generate_sr25519 c g1 n).1 =
        c.sr25519PublicOf
          (c.sr25519GenerateWith (c.sampleSip (c.chacha20FromSeed seed)).2).1 := by
  subst h1
  subst h2
  exact ⟨rfl, rfl, rfl⟩

/-- Witness for C4: the determinism theorem evaluated at a concrete 32-byte
seed. -/
theorem keystore_new_deterministic_witness :
    (Keystore.generate_sr25519 defaultCrypto
        (Keystore.new defaultCrypto (List.replicate 32 7)) .Aura).1 =
      (Keystore.generate_sr25519 defaultCrypto
        (Keystore.new defaultCrypto (List.replicate 32 7)) .Aura).1 ∧
      (Keystore.generate_ed25519 defaultCrypto
          (Keystore.new defaultCrypto (List.replicate 32 7)) .Aura).1 =
        (Keystore.generate_ed25519 defaultCrypto
          (Keystore.new defaultCrypto (List.replicate 32 7)) .Aura).1 ∧
      (Keystore.generate_sr25519 defaultCrypto
          (Keystore.new defaultCrypto (List.replicate 32 7)) .Aura).1 =
        defaultCrypto.sr25519PublicOf
          (defaultCrypto.sr25519GenerateWith
            (defaultCrypto.sampleSip
              (defaultCrypto.chacha20FromSeed (List.replicate 32 7))).2).1 :=
  keystore_new_deterministic defaultCrypto (List.replicate 32 7)
    (Keystore.new defaultCrypto (List.replicate 32 7))
    (Keystore.new defaultCrypto (List.replicate 32 7)) .Aura (by decide) rfl rfl

/-- Claim C5: a successful `sign` dispatches on the matched entry's
algorithm: an Ed25519 entry signs the raw payload with Ed25519, an Sr25519
entry signs the payload under the one hard-coded signing-context label
`b"substrate"`, which is a per-file constant and not a parameter of the
call. -/
theorem sign_dispatch (c : Crypto) (g : Guarded) (n : KeyNamespace) (pk : Nat)
    (payload : Bytes) :
    (∀ key, mapGet g.keys (n, pk) = some (.MemoryEd25519 key) →
      Keystore.sign c g n pk payload = (.ok (c.ed25519SignBytes key payload), g)) ∧
      (∀ key, mapGet g.keys (n, pk) = some (.MemorySr25519 key) →
        Keystore.sign c g n pk payload =
          (.ok (c.sr25519SignCtx key substrateContext payload), g)) := by
  constructor
  · intro key hkey
    unfold Keystore.sign
    rw [hkey]
  · intro key hkey
    unfold Keystore.sign
    rw [hkey]

/-- Witness for C5: the dispatch theorem evaluated against one concrete
Ed25519 entry and one concrete Sr25519 entry. -/
theorem sign_dispatch_witness :
    Keystore.sign defaultCrypto exampleEdState .Aura 5 [1, 2, 3] =
        (.ok (defaultCrypto.ed25519SignBytes 9 [1, 2, 3]), exampleEdState) ∧
      Keystore.sign defaultCrypto exampleSrState .Babe 3 [4] =
        (.ok (defaultCrypto.sr25519SignCtx 7 substrateContext [4]),
          exampleSrState) :=
  ⟨(sign_dispatch defaultCrypto exampleEdState .Aura 5 [1, 2, 3]).1 9 rfl,
    (sign_dispatch defaultCrypto exampleSrState .Babe 3 [4]).2 7 rfl⟩

/-- The transcript-building loop appends exactly one operation per item, in
input order; auxiliary generalization over the starting transcript. -/
theorem buildTranscript_loop (t : Transcript) (items : List TranscriptItem) :
    items.foldl
        (fun t item =>
          match item.2 with
          | .inl bytes => t.append_message item.1 bytes
          | .inr value => t.append_u64 item.1 value) t =
      { initLabel := t.initLabel, ops := t.ops ++ items.map specItemOp } := by
  induction items generalizing t with
  | nil => simp
  | cons item items ih =>
    rcases item with ⟨label, value⟩
    rw [List.foldl_cons, ih]
    rcases value with bytes | value <;>
      simp [Transcript.append_message, Transcript.append_u64, specItemOp]

/-- Claim C6: the transcript passed to VRF signing is seeded with `label` and
holds exactly one append per caller item, in the caller's order, raw bytes
for the byte-sequence variant and a 64-bit integer for the integer variant:
no item is skipped, duplicated, or reordered. -/
theorem buildTranscript_exact (label : Bytes) (items : List TranscriptItem) :
    buildTranscript label items =
      { initLabel := label, ops := items.map specItemOp } := by
  rw [buildTranscript, buildTranscript_loop]
  rfl

/-- Claim C7: a successful `sign_sr25519_vrf` call returns a `VrfSignature`
holding exactly the proof component of the VRF signing operation over the
built transcript; the in-out (preoutput) component is discarded. -/
theorem sign_vrf_proof_only (c : Crypto) (g : Guarded) (n : KeyNamespace)
    (pk : Nat) (label : Bytes) (items : List TranscriptItem) (kp : Nat)
    (h : mapGet g.keys (n, pk) = some (.MemorySr25519 kp)) :
    Keystore.sign_sr25519_vrf c g n pk label items =
      (.ok { proof := (c.vrfSign kp (buildTranscript label items)).2.1 }, g) := by
  unfold Keystore.sign_sr25519_vrf
  rw [h]

/-- Witness for C7: a concrete VRF call on an Sr25519 entry returns exactly
the proof component. -/
theorem sign_vrf_proof_only_witness :
    Keystore.sign_sr25519_vrf defaultCrypto exampleSrState .Babe 3 [9] [] =
      (.ok { proof := (defaultCrypto.vrfSign 7 (buildTranscript [9] [])).2.1 },
        exampleSrState) :=
  sign_vrf_proof_only defaultCrypto exampleSrState .Babe 3 [9] [] 7 rfl

/-- Claim C8: `insert_sr25519_memory` aborts (modelled as `none`, producing
no successor state and hence inserting nothing) exactly when the 64 bytes do
not decode into a valid Sr25519 private key; with valid key bytes the abort
branch is never reached. -/
theorem insert_invalid_key_aborts (c : Crypto) (g : Guarded)
    (nss : List KeyNamespace) (private_key : Bytes) :
    Keystore.insert_sr25519_memory c g nss private_key = none ↔
      c.secretKeyFromBytes private_key = none := by
  unfold Keystore.insert_sr25519_memory
  rcases h : c.secretKeyFromBytes private_key with _ | kp <;> simp

/-- Claim C9: the key index keeps at most one entry per (namespace, public
key) pair: every generation or insertion operation preserves distinctness of
the pairs listed by `keys()`, and an insertion at an existing pair silently
replaces the stored entry. -/
theorem index_unique_per_pair (c : Crypto) (g : Guarded) (ns : KeyNamespace)
    (nss : List KeyNamespace) (private_key : Bytes) (h : IndexNodup g) :
    IndexNodup (Keystore.generate_ed25519 c g ns).2 ∧
      IndexNodup (Keystore.generate_sr25519 c g ns).2 ∧
      (∀ pk g',
        Keystore.insert_sr25519_memory c g nss private_key = some (pk, g') →
        IndexNodup g') ∧
      (∀ (k : KeyNamespace × Nat) (v : PrivateKey),
        mapGet (mapInsert g.keys k v) k = some v) := by
  refine ⟨?_, ?_, ?_, ?_⟩
  · exact nodup_map_fst_mapInsert g.keys _ _ h
  · exact nodup_map_fst_mapInsert g.keys _ _ h
  · intro pk g' hins
    unfold Keystore.insert_sr25519_memory at hins
    rcases hfb : c.secretKeyFromBytes private_key with _ | kp
    · rw [hfb] at hins
      simp at hins
    · rw [hfb] at hins
      simp only [Option.some.injEq, Prod.mk.injEq] at hins
      rcases hins with ⟨_, hg'⟩
      rw [← hg']
      exact nodup_foldl_insert nss g.keys _ _ h
  · intro k v
    rw [mapGet_mapInsert, if_pos rfl]

/-- Witness for C9: generating a key on a concrete duplicate-free keystore
keeps its key list duplicate-free. -/
theorem index_unique_per_pair_witness :
    IndexNodup (Keystore.generate_ed25519 defaultCrypto emptyState .Aura).2 ∧
      IndexNodup (Keystore.generate_sr25519 defaultCrypto emptyState .Babe).2 :=
  ⟨(index_unique_per_pair defaultCrypto emptyState .Aura [] []
      List.nodup_nil).1,
    (index_unique_per_pair defaultCrypto emptyState .Babe [] []
      List.nodup_nil).2.1⟩

end Smoldot
